import Mathlib

/-!
Shallow embedding of the cinder collector plugin core
(`src/collector/collector.go`).

The Go code drives external collaborators (identity service, tenant
directory, volume/snapshot/limits fetchers, reflective namespace
projection) that live outside this file's source; they are abstracted as
an oracle record `Env`.  Mutable collector state is passed explicitly as
a `Collector` value, and every network interaction performed by a call is
recorded in an event trace so that "performs no network interaction"
style properties can be stated.

Concurrency note: the admin-scoped phase launches at most two goroutines
writing to disjoint call-local maps, and the limits phase launches one
goroutine per uncached tenant, each writing to a distinct key of the
shared limits map and at most one error to a buffered channel.  The
embedding runs these tasks sequentially in launch order.  Final cache
contents and the presence/absence of a surfaced error are independent of
the interleaving (tasks touch disjoint keys), only *which* error is
surfaced depends on it, and no property below depends on which error is
chosen.
-/

namespace Cinder

/-- Error values flowing through the collector.  Collaborator failures
(`authFailure`, `directoryFailure`, `fetchFailure`) carry an opaque code
so that verbatim propagation is observable. -/
inductive CError where
  | configMissing (key : String)
  | malformedNamespace (len : Nat)
  | authFailure (code : Nat)
  | directoryFailure (code : Nat)
  | fetchFailure (code : Nat)
deriving Repr, DecidableEq

/-- `types.Volumes` (per-tenant volume statistics; the struct lives in
the repo's `types` package, outside `src/`).  Modelled from the spec:
"Volumes (per-tenant counts)". -/
structure Volumes where
  count : Int := 0
  bytes : Int := 0
deriving Repr, DecidableEq, Inhabited

/-- `types.Snapshots` (per-tenant snapshot statistics; outside `src/`).
Modelled from the spec: "Snapshots (per-tenant counts)". -/
structure Snapshots where
  count : Int := 0
  bytes : Int := 0
deriving Repr, DecidableEq, Inhabited

/-- `types.Limits` (per-tenant quota ceilings; outside `src/`).
Modelled from the spec: "Limits: per-tenant quota/usage ceiling values".
The `Inhabited` default is the Go zero value of the struct. -/
structure Limits where
  maxTotalVolumes : Int := 0
  maxTotalSnapshots : Int := 0
  maxTotalVolumeGigabytes : Int := 0
deriving Repr, DecidableEq, Inhabited

/-- Plugin configuration as read by `config.GetConfigItem(s)`: required
keys `endpoint`, `user`, `password`, `tenant`; optional keys
`domain_name`, `domain_id` (absent means empty string, not an error). -/
structure Config where
  tenant : Option String := none
  endpoint : Option String := none
  user : Option String := none
  password : Option String := none
  domainName : Option String := none
  domainId : Option String := none
deriving Repr, DecidableEq, Inhabited

/-- `plugin.MetricType`: field names follow the Go struct
(`Namespace_`, `Config_`, `Timestamp_`, `Data_`).  The namespace is the
list of path segments; `data_` is the projected scalar. -/
structure MetricType where
  namespace_ : List String := []
  config_ : Config := {}
  timestamp_ : Nat := 0
  data_ : Int := 0
deriving Repr, DecidableEq, Inhabited

/-- The temporary container built for each requested namespace during
projection (the anonymous struct with `snapshots`, `volumes`, `limits`
fields in `CollectMetrics`). -/
structure MetricContainer where
  s : Snapshots
  v : Volumes
  l : Limits
deriving Repr, DecidableEq, Inhabited

/-- One observable interaction with the network-facing collaborators. -/
inductive NetEvent where
  | listTenants
  | authExchange (tenant : String)
  | fetchVolumes
  | fetchSnapshots
  | fetchLimits (tenant : String)
deriving Repr, DecidableEq

/-- Outcome of a Go call: a value, a returned error, or a runtime panic
(out-of-range index). -/
inductive GoResult (α : Type) where
  | ok (val : α)
  | err (e : CError)
  | panics
deriving Repr, DecidableEq

def GoResult.ofExcept {α : Type} : Except CError α → GoResult α
  | .ok a => .ok a
  | .error e => .err e

/-- The mutable `collector` struct: tenant directory cache, dispatched
service handle, process-lifetime limits cache, and provider (session)
cache.  Go maps are embedded as association lists. -/
structure Collector where
  allTenants : List (String × String) := []
  service : Option Nat := none
  allLimits : List (String × Limits) := []
  providers : List (String × Nat) := []
deriving Repr, DecidableEq, Inhabited

/-- Oracle for the external collaborators of one run.  Sessions are
opaque `Nat` handles.  `GetLimits` is a single-tenant scoped call made
with that tenant's own session, so it is keyed by the tenant; the
volumes/snapshots fetches are single admin-scoped bulk calls. -/
structure Env where
  authenticateResult : String → Except CError Nat
  getTenantsResult : Except CError (List (String × String))
  getVolumesResult : Except CError (List (String × Volumes))
  getSnapshotsResult : Except CError (List (String × Snapshots))
  getLimitsResult : String → Except CError Limits
  getValueByNamespace : MetricContainer → List String → Int
  now : Nat

/-! ### Association-list operations (Go map read / write) -/

def alookup {α : Type} : List (String × α) → String → Option α
  | [], _ => none
  | (k, v) :: rest, key => if k = key then some v else alookup rest key

/-- Go map read: missing key yields the zero value. -/
def alookupD {α : Type} (l : List (String × α)) (key : String) (dflt : α) : α :=
  (alookup l key).getD dflt

/-- Go map assignment: overwrite an existing binding or append a new one. -/
def aset {α : Type} : List (String × α) → String → α → List (String × α)
  | [], key, v => [(key, v)]
  | (k, w) :: rest, key, v =>
    if k = key then (key, v) :: rest else (k, w) :: aset rest key v

/-- `str.Set.Add`: insert preserving first-occurrence order. -/
def addUnique (l : List String) (s : String) : List String :=
  if s ∈ l then l else l ++ [s]

/-! ### Embedded operations -/

/-- `config.GetConfigItems(cfg, "endpoint", "user", "password")`. -/
def getConfigItems (cfg : Config) : Except CError (String × String × String) :=
  match cfg.endpoint, cfg.user, cfg.password with
  | some e, some u, some p => .ok (e, u, p)
  | none, _, _ => .error (.configMissing "endpoint")
  | _, none, _ => .error (.configMissing "user")
  | _, _, none => .error (.configMissing "password")

/-- All three required credential keys are present. -/
def configComplete (cfg : Config) : Bool :=
  cfg.endpoint.isSome && cfg.user.isSome && cfg.password.isSome

/-- `collector.authenticate`: on a cache hit return immediately; on a
miss read credentials from configuration, perform the credential
exchange, and on success store the provider and dispatch the service
version.  On failure nothing is stored and the error is returned
unchanged. -/
def authenticate (c : Collector) (cfg : Config) (tenant : String) (env : Env) :
    Except CError Unit × Collector × List NetEvent :=
  match alookup c.providers tenant with
  | some _ => (.ok (), c, [])
  | none =>
    match getConfigItems cfg with
    | .error e => (.error e, c, [])
    | .ok _ =>
      match env.authenticateResult tenant with
      | .error e => (.error e, c, [.authExchange tenant])
      | .ok p =>
        (.ok (),
         { c with providers := aset c.providers tenant p, service := some p },
         [.authExchange tenant])

/-- `getTenants`: read credentials from configuration, then perform one
directory listing call. -/
def getTenantsCall (cfg : Config) (env : Env) :
    Except CError (List (String × String)) × List NetEvent :=
  match getConfigItems cfg with
  | .error e => (.error e, [])
  | .ok _ => (env.getTenantsResult, [.listTenants])

/-- The collection plan derived from the request batch: requested tenant
set (`str.Set`, here with deterministic first-occurrence order) and the
three category flags. -/
structure CollectionPlan where
  collectTenants : List String := []
  collectLimits : Bool := false
  collectVolumes : Bool := false
  collectSnapshots : Bool := false
deriving Repr, DecidableEq, Inhabited

/-- The planning loop of `CollectMetrics`: for each requested metric,
reject namespaces shorter than 6 segments, record segment 3 as the
tenant, and set category flags by `str.Contains` membership of the
whole segment list ("limits" first, else "volumes", else snapshots). -/
def buildPlanAux : CollectionPlan → List MetricType → Except CError CollectionPlan
  | acc, [] => .ok acc
  | acc, mt :: rest =>
    if mt.namespace_.length < 6 then
      .error (.malformedNamespace mt.namespace_.length)
    else
      let acc1 := { acc with
        collectTenants := addUnique acc.collectTenants (mt.namespace_.getD 3 "") }
      let acc2 :=
        if "limits" ∈ mt.namespace_ then { acc1 with collectLimits := true }
        else if "volumes" ∈ mt.namespace_ then { acc1 with collectVolumes := true }
        else { acc1 with collectSnapshots := true }
      buildPlanAux acc2 rest

def buildPlan (metricTypes : List MetricType) : Except CError CollectionPlan :=
  buildPlanAux {} metricTypes

/-- `allVolumes[tenantName] = volumeCount` loop body: re-key a fetcher
result (keyed by tenant identifier) by tenant display name through the
`allTenants` directory (Go map read, empty string when unknown). -/
def mapTenantNames {α : Type} (allTenants : List (String × String))
    (m : List (String × α)) : List (String × α) :=
  m.foldl (fun acc p => aset acc (alookupD allTenants p.1 "") p.2) []

/-- The admin-scoped phase of `CollectMetrics`: authenticate as the
admin tenant, then (concurrently in the source) run the volumes and the
snapshots bulk fetch if requested.  Both launched tasks run to
completion; afterwards the first error sent to the channel, if any, is
returned and the call-local result maps are discarded. -/
def adminPhase (env : Env) (cfg : Config) (admin : String)
    (collectVolumes collectSnapshots : Bool) (c : Collector) :
    Except CError (List (String × Volumes) × List (String × Snapshots))
      × Collector × List NetEvent :=
  match authenticate c cfg admin env with
  | (.error e, c1, ev) => (.error e, c1, ev)
  | (.ok _, c1, ev) =>
    let volTask : Option CError × List (String × Volumes) × List NetEvent :=
      if collectVolumes then
        match env.getVolumesResult with
        | .error e => (some e, [], [.fetchVolumes])
        | .ok m => (none, mapTenantNames c1.allTenants m, [.fetchVolumes])
      else (none, [], [])
    let snapTask : Option CError × List (String × Snapshots) × List NetEvent :=
      if collectSnapshots then
        match env.getSnapshotsResult with
        | .error e => (some e, [], [.fetchSnapshots])
        | .ok m => (none, mapTenantNames c1.allTenants m, [.fetchSnapshots])
      else (none, [], [])
    let trace := ev ++ volTask.2.2 ++ snapTask.2.2
    match volTask.1 with
    | some e => (.error e, c1, trace)
    | none =>
      match snapTask.1 with
      | some e => (.error e, c1, trace)
      | none => (.ok (volTask.2.1, snapTask.2.1), c1, trace)

/-- The body of one limits fetch task, `limits, err :=
c.service.GetLimits(p)`: the fetcher adapter lives outside `src/`.
Modelled from the spec: "`FetchLimits(session) → Limits` ... may fail
with a `FetchError`", combined with the Go convention that a failing
`(types.Limits, error)` return carries the zero-valued struct. -/
def goGetLimits (env : Env) (tenant : String) : Limits × Option CError :=
  match env.getLimitsResult tenant with
  | .ok v => (v, none)
  | .error e => (default, some e)

/-- The per-tenant loop of the limits phase.  For each requested tenant
not in the process-lifetime cache (and only when limits were requested):
authenticate that tenant (an error here returns immediately from
`CollectMetrics`), then run the fetch task, which sends its error, if
any, to the channel and stores its result into `c.allLimits`
unconditionally.  Returns the early-return error (if an authentication
failed), the collector, the channel contents in launch order, and the
trace. -/
def limitsLoop (env : Env) (cfg : Config) (collectLimits : Bool) :
    Collector → List String →
    Option CError × Collector × List CError × List NetEvent
  | c, [] => (none, c, [], [])
  | c, tenant :: rest =>
    if collectLimits && (alookup c.allLimits tenant).isNone then
      match authenticate c cfg tenant env with
      | (.error e, c1, ev) => (some e, c1, [], ev)
      | (.ok _, c1, ev) =>
        let task := goGetLimits env tenant
        let c2 := { c1 with allLimits := aset c1.allLimits tenant task.1 }
        match limitsLoop env cfg collectLimits c2 rest with
        | (r, c3, errs, ev2) =>
          (r, c3, task.2.toList ++ errs, ev ++ [.fetchLimits tenant] ++ ev2)
    else
      limitsLoop env cfg collectLimits c rest

/-- The limits phase: run the loop, then read the first channel error. -/
def limitsPhase (env : Env) (cfg : Config) (collectLimits : Bool)
    (c : Collector) (tenants : List String) :
    Except CError Unit × Collector × List NetEvent :=
  match limitsLoop env cfg collectLimits c tenants with
  | (some e, c1, _, ev) => (.error e, c1, ev)
  | (none, c1, e :: _, ev) => (.error e, c1, ev)
  | (none, c1, [], ev) => (.ok (), c1, ev)

/-- The per-tenant container assembled during projection (Go map reads
with zero-value defaults). -/
def mkContainer (allSnapshots : List (String × Snapshots))
    (allVolumes : List (String × Volumes)) (allLimits : List (String × Limits))
    (tenant : String) : MetricContainer :=
  { s := alookupD allSnapshots tenant default
  , v := alookupD allVolumes tenant default
  , l := alookupD allLimits tenant default }

/-- Projection of one requested namespace: build the temporary container
for segment 3's tenant and extract the value addressed by the segments
from index 4 on; stamp with the current time. -/
def projectMetric (env : Env) (allSnapshots : List (String × Snapshots))
    (allVolumes : List (String × Volumes)) (allLimits : List (String × Limits))
    (mt : MetricType) : MetricType :=
  let tenant := mt.namespace_.getD 3 ""
  { namespace_ := mt.namespace_
  , config_ := {}
  , timestamp_ := env.now
  , data_ := env.getValueByNamespace
      (mkContainer allSnapshots allVolumes allLimits tenant)
      (mt.namespace_.drop 4) }

/-- The directory-population step of `CollectMetrics`: `if
len(c.allTenants) == 0 { c.allTenants, err = getTenants(...) }`. -/
def directoryStep (c : Collector) (cfg : Config) (env : Env) :
    Except CError Collector × List NetEvent :=
  if c.allTenants.isEmpty then
    match getTenantsCall cfg env with
    | (.error e, ev) => (.error e, ev)
    | (.ok ts, ev) => (.ok { c with allTenants := ts }, ev)
  else (.ok c, [])

/-- `CollectMetrics` after the (panicking) read of `metricTypes[0]`:
read the admin tenant from the first metric's configuration, populate
the tenant directory if empty, build the plan, run the admin-scoped
phase and the limits phase, then project every requested namespace. -/
def collectMetricsAux (c : Collector) (env : Env) (mt0 : MetricType)
    (metricTypes : List MetricType) :
    Except CError (List MetricType) × Collector × List NetEvent :=
  match mt0.config_.tenant with
  | none => (.error (.configMissing "tenant"), c, [])
  | some admin =>
    match directoryStep c mt0.config_ env with
    | (.error e, ev) => (.error e, c, ev)
    | (.ok c1, ev1) =>
      match buildPlan metricTypes with
      | .error e => (.error e, c1, ev1)
      | .ok plan =>
        match adminPhase env mt0.config_ admin
            plan.collectVolumes plan.collectSnapshots c1 with
        | (.error e, c2, ev2) => (.error e, c2, ev1 ++ ev2)
        | (.ok maps, c2, ev2) =>
          match limitsPhase env mt0.config_ plan.collectLimits c2
              plan.collectTenants with
          | (.error e, c3, ev3) => (.error e, c3, ev1 ++ ev2 ++ ev3)
          | (.ok _, c3, ev3) =>
            (.ok (metricTypes.map
                (projectMetric env maps.2 maps.1 c3.allLimits)),
             c3, ev1 ++ ev2 ++ ev3)

/-- `collector.CollectMetrics`: reading `metricTypes[0]` on an empty
request list panics before anything else happens. -/
def collectMetrics (c : Collector) (env : Env) (metricTypes : List MetricType) :
    GoResult (List MetricType) × Collector × List NetEvent :=
  match metricTypes with
  | [] => (.panics, c, [])
  | mt0 :: _ =>
    match collectMetricsAux c env mt0 metricTypes with
    | (r, c1, ev) => (GoResult.ofExcept r, c1, ev)

/-- A sequence of `CollectMetrics` calls on the same engine instance,
threading the collector state and concatenating the traces. -/
def runCalls : Collector → List (Env × List MetricType) → Collector × List NetEvent
  | c, [] => (c, [])
  | c, (env, mts) :: rest =>
    match collectMetrics c env mts with
    | (_, c1, ev) =>
      match runCalls c1 rest with
      | (c2, ev2) => (c2, ev ++ ev2)

/-! ### Basic lemmas about the map embedding -/

theorem alookup_aset_self {α : Type} (l : List (String × α)) (k : String) (v : α) :
    alookup (aset l k v) k = some v := by
  induction l with
  | nil => simp [aset, alookup]
  | cons p rest ih =>
    by_cases h : p.1 = k
    · simp [aset, h, alookup]
    · simp [aset, h, alookup, ih]

theorem alookup_aset_ne {α : Type} (l : List (String × α)) (k k' : String) (v : α)
    (h : k ≠ k') : alookup (aset l k v) k' = alookup l k' := by
  induction l with
  | nil => simp [aset, alookup, h]
  | cons p rest ih =>
    by_cases h1 : p.1 = k
    · simp [aset, h1, alookup, h]
    · simp [aset, h1, alookup, ih]

theorem getConfigItems_ok (cfg : Config) (h : configComplete cfg = true) :
    ∃ items, getConfigItems cfg = .ok items := by
  unfold configComplete at h
  obtain ⟨e, he⟩ := Option.isSome_iff_exists.mp (by
    simp only [Bool.and_eq_true] at h; exact h.1.1)
  obtain ⟨u, hu⟩ := Option.isSome_iff_exists.mp (by
    simp only [Bool.and_eq_true] at h; exact h.1.2)
  obtain ⟨p, hp⟩ := Option.isSome_iff_exists.mp (by
    simp only [Bool.and_eq_true] at h; exact h.2)
  exact ⟨(e, u, p), by simp [getConfigItems, he, hu, hp]⟩

/-! ### Lemmas about `authenticate` -/

theorem authenticate_cached (c : Collector) (cfg : Config) (t : String) (env : Env)
    (p : Nat) (h : alookup c.providers t = some p) :
    authenticate c cfg t env = (.ok (), c, []) := by
  simp [authenticate, h]

/-- Whatever `authenticate` does, it never touches the limits cache or
the tenant directory. -/
theorem authenticate_preserves (c : Collector) (cfg : Config) (t : String)
    (env : Env) :
    (authenticate c cfg t env).2.1.allLimits = c.allLimits ∧
    (authenticate c cfg t env).2.1.allTenants = c.allTenants := by
  unfold authenticate
  cases halo : alookup c.providers t with
  | some p => simp
  | none =>
    cases hcfg : getConfigItems cfg with
    | error e => simp
    | ok items =>
      cases har : env.authenticateResult t with
      | error e => simp
      | ok p => simp

/-- With complete configuration and a succeeding oracle, `authenticate`
returns `ok` regardless of the session-cache state. -/
theorem authenticate_ok (c : Collector) (cfg : Config) (t : String) (env : Env)
    (hcfg : configComplete cfg = true)
    (hres : ∃ p, env.authenticateResult t = .ok p) :
    ∃ c1 ev, authenticate c cfg t env = (.ok (), c1, ev) ∧
      c1.allLimits = c.allLimits ∧ c1.allTenants = c.allTenants := by
  obtain ⟨items, hitems⟩ := getConfigItems_ok cfg hcfg
  obtain ⟨p, hp⟩ := hres
  unfold authenticate
  cases halo : alookup c.providers t with
  | some q => exact ⟨c, [], rfl, rfl, rfl⟩
  | none =>
    rw [hitems, hp]
    exact ⟨_, _, rfl, rfl, rfl⟩

/-- An uncached tenant with complete configuration always triggers
exactly one credential exchange, whatever the oracle answers. -/
theorem authenticate_exchanges (c : Collector) (cfg : Config) (t : String)
    (env : Env) (huncached : alookup c.providers t = none)
    (hcfg : configComplete cfg = true) :
    (authenticate c cfg t env).2.2 = [.authExchange t] := by
  obtain ⟨items, hitems⟩ := getConfigItems_ok cfg hcfg
  unfold authenticate
  rw [huncached, hitems]
  cases env.authenticateResult t <;> simp

theorem authenticate_trace (c : Collector) (cfg : Config) (t : String) (env : Env) :
    (authenticate c cfg t env).2.2 = [] ∨
    (authenticate c cfg t env).2.2 = [.authExchange t] := by
  unfold authenticate
  cases halo : alookup c.providers t with
  | some p => simp
  | none =>
    cases hcfg : getConfigItems cfg with
    | error e => simp
    | ok items =>
      cases har : env.authenticateResult t with
      | error e => simp
      | ok p => simp

/-! ### Lemmas about the limits phase -/

/-- A tenant already present in the process-lifetime limits cache keeps
its entry untouched through the limits loop, and the loop launches no
fetch for it. -/
theorem limitsLoop_preserves_cached (env : Env) (cfg : Config) (cl : Bool)
    (t : String) (v : Limits) (tenants : List String) :
    ∀ (c : Collector), alookup c.allLimits t = some v →
      alookup (limitsLoop env cfg cl c tenants).2.1.allLimits t = some v ∧
      NetEvent.fetchLimits t ∉ (limitsLoop env cfg cl c tenants).2.2.2 := by
  induction tenants with
  | nil =>
    intro c h
    simp [limitsLoop, h]
  | cons tenant rest ih =>
    intro c h
    by_cases hcond : (cl && (alookup c.allLimits tenant).isNone) = true
    · have hne : tenant ≠ t := by
        intro heq
        subst heq
        have h2 := ((Bool.and_eq_true _ _).mp hcond).2
        rw [h] at h2
        simp [Option.isNone] at h2
      rcases hauth : authenticate c cfg tenant env with ⟨r, c1, ev⟩
      have hpres := authenticate_preserves c cfg tenant env
      rw [hauth] at hpres
      have htr := authenticate_trace c cfg tenant env
      rw [hauth] at htr
      simp only at hpres htr
      have hev : NetEvent.fetchLimits t ∉ ev := by
        rcases htr with htr | htr <;> simp [htr]
      cases r with
      | error e =>
        simp only [limitsLoop, hcond, if_true, hauth]
        exact ⟨by rw [hpres.1]; exact h, hev⟩
      | ok u =>
        have h2 : alookup (aset c1.allLimits tenant (goGetLimits env tenant).1)
            t = some v := by
          rw [alookup_aset_ne _ _ _ _ hne, hpres.1]; exact h
        have ihres := ih { c1 with
          allLimits := aset c1.allLimits tenant (goGetLimits env tenant).1 } h2
        rcases hloop : limitsLoop env cfg cl { c1 with
          allLimits := aset c1.allLimits tenant (goGetLimits env tenant).1 }
            rest with ⟨r2, c3, errs, ev2⟩
        rw [hloop] at ihres
        simp only at ihres
        simp only [limitsLoop, hcond, if_true, hauth, hloop]
        refine ⟨ihres.1, ?_⟩
        simp only [List.mem_append, List.mem_singleton]
        intro hmem
        rcases hmem with (hmem | hmem) | hmem
        · exact hev hmem
        · exact hne (by injection hmem with h3; exact h3.symm)
        · exact ihres.2 hmem
    · simp only [limitsLoop, hcond, if_false]
      exact ih c h

/-- With limits requested, complete configuration, and succeeding
authentication for every listed tenant, the limits loop never returns
early, and afterwards every listed tenant's cache entry holds exactly
the value its fetch task produced (the fetched limits on success, the
zero value on fetch failure). -/
theorem limitsLoop_commits (env : Env) (cfg : Config)
    (hcfg : configComplete cfg = true) (tenants : List String) :
    ∀ (c : Collector),
      (∀ t ∈ tenants, ∃ p, env.authenticateResult t = .ok p) →
      (∀ t ∈ tenants, alookup c.allLimits t = none ∨
        alookup c.allLimits t = some (goGetLimits env t).1) →
      (limitsLoop env cfg true c tenants).1 = none ∧
      ∀ t ∈ tenants,
        alookup (limitsLoop env cfg true c tenants).2.1.allLimits t =
          some (goGetLimits env t).1 := by
  induction tenants with
  | nil =>
    intro c _ _
    simp [limitsLoop]
  | cons tenant rest ih =>
    intro c hauth hinv
    by_cases hcached : (alookup c.allLimits tenant).isNone = true
    · obtain ⟨c1, ev, hauth1, hl1, _⟩ :=
        authenticate_ok c cfg tenant env hcfg (hauth tenant (by simp))
      have hcond : (true && (alookup c.allLimits tenant).isNone) = true := by
        simp [hcached]
      have hinv2 : ∀ t ∈ rest,
          alookup (aset c1.allLimits tenant (goGetLimits env tenant).1) t
            = none ∨
          alookup (aset c1.allLimits tenant (goGetLimits env tenant).1) t
            = some (goGetLimits env t).1 := by
        intro t ht
        by_cases hte : tenant = t
        · subst hte
          right
          exact alookup_aset_self _ _ _
        · rw [alookup_aset_ne _ _ _ _ hte, hl1]
          exact hinv t (List.mem_cons_of_mem _ ht)
      have ihres := ih { c1 with
          allLimits := aset c1.allLimits tenant (goGetLimits env tenant).1 }
        (fun t ht => hauth t (List.mem_cons_of_mem _ ht)) hinv2
      have hkeep := limitsLoop_preserves_cached env cfg true tenant
        (goGetLimits env tenant).1 rest
        { c1 with
          allLimits := aset c1.allLimits tenant (goGetLimits env tenant).1 }
        (alookup_aset_self _ _ _)
      rcases hloop : limitsLoop env cfg true { c1 with
          allLimits := aset c1.allLimits tenant (goGetLimits env tenant).1 }
          rest with ⟨r2, c3, errs, ev2⟩
      rw [hloop] at ihres hkeep
      simp only at ihres hkeep
      simp only [limitsLoop, hcond, if_true, hauth1, hloop]
      refine ⟨ihres.1, ?_⟩
      intro t ht
      rcases List.mem_cons.mp ht with hte | ht2
      · subst hte
        exact hkeep.1
      · exact ihres.2 t ht2
    · have hsome : alookup c.allLimits tenant = some (goGetLimits env tenant).1 := by
        rcases hinv tenant (by simp) with hn | hs
        · rw [hn] at hcached
          simp [Option.isNone] at hcached
        · exact hs
      have hcond : (true && (alookup c.allLimits tenant).isNone) = false := by
        rw [hsome]
        simp [Option.isNone]
      have ihres := ih c (fun t ht => hauth t (List.mem_cons_of_mem _ ht))
        (fun t ht => hinv t (List.mem_cons_of_mem _ ht))
      have hkeep := limitsLoop_preserves_cached env cfg true tenant
        (goGetLimits env tenant).1 rest c hsome
      rcases hloop : limitsLoop env cfg true c rest with ⟨r2, c3, errs, ev2⟩
      rw [hloop] at ihres hkeep
      simp only at ihres hkeep
      simp only [limitsLoop, hcond, Bool.false_eq_true, if_false, hloop]
      refine ⟨ihres.1, ?_⟩
      intro t ht
      rcases List.mem_cons.mp ht with hte | ht2
      · subst hte
        exact hkeep.1
      · exact ihres.2 t ht2

/-- If some listed tenant is uncached and its fetch fails (and no
authentication aborts the loop first), then at least one error reaches
the channel. -/
theorem limitsLoop_error_nonempty (env : Env) (cfg : Config)
    (hcfg : configComplete cfg = true) (tenants : List String) :
    ∀ (c : Collector),
      (∀ t ∈ tenants, ∃ p, env.authenticateResult t = .ok p) →
      (∃ t ∈ tenants, alookup c.allLimits t = none ∧
        ∃ e, env.getLimitsResult t = .error e) →
      (limitsLoop env cfg true c tenants).2.2.1 ≠ [] := by
  induction tenants with
  | nil =>
    intro c _ hw
    rcases hw with ⟨t, ht, _⟩
    exact absurd ht (List.not_mem_nil t)
  | cons tenant rest ih =>
    intro c hauth hw
    obtain ⟨tw, htw, hnone, e, herr⟩ := hw
    by_cases hcached : (alookup c.allLimits tenant).isNone = true
    · obtain ⟨c1, ev, hauth1, hl1, _⟩ :=
        authenticate_ok c cfg tenant env hcfg (hauth tenant (by simp))
      have hcond : (true && (alookup c.allLimits tenant).isNone) = true := by
        simp [hcached]
      rcases hloop : limitsLoop env cfg true { c1 with
          allLimits := aset c1.allLimits tenant (goGetLimits env tenant).1 }
          rest with ⟨r2, c3, errs, ev2⟩
      by_cases htweq : tw = tenant
      · subst htweq
        have htask : (goGetLimits env tw).2 = some e := by
          simp [goGetLimits, herr]
        simp only [limitsLoop, hcond, if_true, hauth1, hloop, htask]
        simp
      · have htwrest : tw ∈ rest := by
          rcases List.mem_cons.mp htw with h | h
          · exact absurd h htweq
          · exact h
        have hnone2 : alookup (aset c1.allLimits tenant
            (goGetLimits env tenant).1) tw = none := by
          rw [alookup_aset_ne _ _ _ _ (fun h => htweq h.symm), hl1]
          exact hnone
        have ihres := ih { c1 with
            allLimits := aset c1.allLimits tenant (goGetLimits env tenant).1 }
          (fun t ht => hauth t (List.mem_cons_of_mem _ ht))
          ⟨tw, htwrest, hnone2, e, herr⟩
        rw [hloop] at ihres
        simp only at ihres
        simp only [limitsLoop, hcond, if_true, hauth1, hloop]
        simp only [ne_eq, List.append_eq_nil, not_and]
        intro _ hcontra
        exact ihres hcontra
    · have htweq : tw ≠ tenant := by
        intro h
        subst h
        rw [hnone] at hcached
        simp [Option.isNone] at hcached
      have htwrest : tw ∈ rest := by
        rcases List.mem_cons.mp htw with h | h
        · exact absurd h htweq
        · exact h
      have hcond : (true && (alookup c.allLimits tenant).isNone) = false := by
        simp only [Bool.true_and]
        exact Bool.not_eq_true _ |>.mp hcached
      have ihres := ih c (fun t ht => hauth t (List.mem_cons_of_mem _ ht))
        ⟨tw, htwrest, hnone, e, herr⟩
      simp only [limitsLoop, hcond, Bool.false_eq_true, if_false]
      exact ihres

/-- The collector coming out of the limits phase is the loop's final
collector, whatever the error outcome. -/
theorem limitsPhase_collector (env : Env) (cfg : Config) (cl : Bool)
    (c : Collector) (tenants : List String) :
    (limitsPhase env cfg cl c tenants).2.1 =
      (limitsLoop env cfg cl c tenants).2.1 := by
  unfold limitsPhase
  rcases limitsLoop env cfg cl c tenants with ⟨r, c1, errs, ev⟩
  cases r <;> cases errs <;> simp

/-- The limits phase surfaces an error whenever the channel is
non-empty. -/
theorem limitsPhase_err (env : Env) (cfg : Config) (cl : Bool)
    (c : Collector) (tenants : List String)
    (h : (limitsLoop env cfg cl c tenants).2.2.1 ≠ []) :
    ∃ e, (limitsPhase env cfg cl c tenants).1 = .error e := by
  unfold limitsPhase
  rcases hl : limitsLoop env cfg cl c tenants with ⟨r, c1, errs, ev⟩
  rw [hl] at h
  simp only at h
  cases r with
  | some e => exact ⟨e, rfl⟩
  | none =>
    cases errs with
    | nil => exact absurd rfl h
    | cons e es => exact ⟨e, rfl⟩

/-! ### Lemmas about plan building -/

/-- If any requested namespace is shorter than 6 segments, planning
fails with a malformed-namespace error (carrying the offending
length). -/
theorem buildPlanAux_short (mts : List MetricType) :
    ∀ (acc : CollectionPlan), (∃ mt ∈ mts, mt.namespace_.length < 6) →
      ∃ n, n < 6 ∧ buildPlanAux acc mts = .error (.malformedNamespace n) := by
  induction mts with
  | nil =>
    intro acc h
    rcases h with ⟨mt, hmem, _⟩
    exact absurd hmem (List.not_mem_nil mt)
  | cons mt rest ih =>
    intro acc h
    by_cases hlen : mt.namespace_.length < 6
    · exact ⟨mt.namespace_.length, hlen, by simp [buildPlanAux, hlen]⟩
    · rcases h with ⟨mtw, hmem, hw⟩
      have hmem2 : mtw ∈ rest := by
        rcases List.mem_cons.mp hmem with h1 | h1
        · subst h1
          exact absurd hw hlen
        · exact h1
      simp only [buildPlanAux, hlen, if_false]
      exact ih _ ⟨mtw, hmem2, hw⟩

/-- How the planning loop really computes the category flags: a flag,
once set, stays set, and each metric sets exactly one flag according to
`str.Contains` over its whole segment list with the priority
limits, then volumes, then snapshots. -/
theorem buildPlanAux_flags (mts : List MetricType) :
    ∀ (acc plan : CollectionPlan), buildPlanAux acc mts = .ok plan →
      (plan.collectLimits = true ↔ acc.collectLimits = true ∨
        ∃ mt ∈ mts, "limits" ∈ mt.namespace_) ∧
      (plan.collectVolumes = true ↔ acc.collectVolumes = true ∨
        ∃ mt ∈ mts, "limits" ∉ mt.namespace_ ∧ "volumes" ∈ mt.namespace_) ∧
      (plan.collectSnapshots = true ↔ acc.collectSnapshots = true ∨
        ∃ mt ∈ mts, "limits" ∉ mt.namespace_ ∧ "volumes" ∉ mt.namespace_) := by
  induction mts with
  | nil =>
    intro acc plan h
    simp only [buildPlanAux] at h
    injection h with h
    subst h
    simp
  | cons mt rest ih =>
    intro acc plan h
    by_cases hlen : mt.namespace_.length < 6
    · simp [buildPlanAux, hlen] at h
    · simp only [buildPlanAux, hlen, if_false] at h
      by_cases hlim : "limits" ∈ mt.namespace_
      · simp only [hlim, if_true] at h
        have hres := ih _ plan h
        simp only at hres
        refine ⟨?_, ?_, ?_⟩
        · rw [hres.1]
          simp only [List.mem_cons]
          constructor
          · intro _
            exact Or.inr ⟨mt, Or.inl rfl, hlim⟩
          · intro _
            exact Or.inl (by trivial)
        · rw [hres.2.1]
          simp only [List.mem_cons]
          constructor
          · rintro (ha | ⟨mtw, hm, hw⟩)
            · exact Or.inl ha
            · exact Or.inr ⟨mtw, Or.inr hm, hw⟩
          · rintro (ha | ⟨mtw, hm | hm, hw⟩)
            · exact Or.inl ha
            · subst hm
              exact absurd hlim hw.1
            · exact Or.inr ⟨mtw, hm, hw⟩
        · rw [hres.2.2]
          simp only [List.mem_cons]
          constructor
          · rintro (ha | ⟨mtw, hm, hw⟩)
            · exact Or.inl ha
            · exact Or.inr ⟨mtw, Or.inr hm, hw⟩
          · rintro (ha | ⟨mtw, hm | hm, hw⟩)
            · exact Or.inl ha
            · subst hm
              exact absurd hlim hw.1
            · exact Or.inr ⟨mtw, hm, hw⟩
      · by_cases hvol : "volumes" ∈ mt.namespace_
        · simp only [hlim, hvol, if_true, if_false] at h
          have hres := ih _ plan h
          simp only at hres
          refine ⟨?_, ?_, ?_⟩
          · rw [hres.1]
            simp only [List.mem_cons]
            constructor
            · rintro (ha | ⟨mtw, hm, hw⟩)
              · exact Or.inl ha
              · exact Or.inr ⟨mtw, Or.inr hm, hw⟩
            · rintro (ha | ⟨mtw, hm | hm, hw⟩)
              · exact Or.inl ha
              · subst hm
                exact absurd hw hlim
              · exact Or.inr ⟨mtw, hm, hw⟩
          · rw [hres.2.1]
            simp only [List.mem_cons]
            constructor
            · intro _
              exact Or.inr ⟨mt, Or.inl rfl, hlim, hvol⟩
            · intro _
              exact Or.inl (by trivial)
          · rw [hres.2.2]
            simp only [List.mem_cons]
            constructor
            · rintro (ha | ⟨mtw, hm, hw⟩)
              · exact Or.inl ha
              · exact Or.inr ⟨mtw, Or.inr hm, hw⟩
            · rintro (ha | ⟨mtw, hm | hm, hw⟩)
              · exact Or.inl ha
              · subst hm
                exact absurd hvol hw.2
              · exact Or.inr ⟨mtw, hm, hw⟩
        · simp only [hlim, hvol, if_false] at h
          have hres := ih _ plan h
          simp only at hres
          refine ⟨?_, ?_, ?_⟩
          · rw [hres.1]
            simp only [List.mem_cons]
            constructor
            · rintro (ha | ⟨mtw, hm, hw⟩)
              · exact Or.inl ha
              · exact Or.inr ⟨mtw, Or.inr hm, hw⟩
            · rintro (ha | ⟨mtw, hm | hm, hw⟩)
              · exact Or.inl ha
              · subst hm
                exact absurd hw hlim
              · exact Or.inr ⟨mtw, hm, hw⟩
          · rw [hres.2.1]
            simp only [List.mem_cons]
            constructor
            · rintro (ha | ⟨mtw, hm, hw⟩)
              · exact Or.inl ha
              · exact Or.inr ⟨mtw, Or.inr hm, hw⟩
            · rintro (ha | ⟨mtw, hm | hm, hw⟩)
              · exact Or.inl ha
              · subst hm
                exact absurd hw.2 hvol
              · exact Or.inr ⟨mtw, hm, hw⟩
          · rw [hres.2.2]
            simp only [List.mem_cons]
            constructor
            · intro _
              exact Or.inr ⟨mt, Or.inl rfl, hlim, hvol⟩
            · intro _
              exact Or.inl (by trivial)

/-! ### Lemmas about the admin-scoped phase and the directory step -/

/-- The admin-scoped phase never touches the limits cache or the tenant
directory. -/
theorem adminPhase_preserves (env : Env) (cfg : Config) (admin : String)
    (cv cs : Bool) (c : Collector) :
    (adminPhase env cfg admin cv cs c).2.1.allLimits = c.allLimits ∧
    (adminPhase env cfg admin cv cs c).2.1.allTenants = c.allTenants := by
  unfold adminPhase
  rcases hauth : authenticate c cfg admin env with ⟨r, c1, ev⟩
  have hp := authenticate_preserves c cfg admin env
  rw [hauth] at hp
  simp only at hp
  cases r with
  | error e => simpa using hp
  | ok u =>
    cases cv <;> cases cs <;>
      cases hv : env.getVolumesResult <;>
      cases hs : env.getSnapshotsResult <;>
      simp [hv, hs, hp.1, hp.2]

/-- The admin-scoped phase launches no limits fetch. -/
theorem adminPhase_no_limits_fetch (env : Env) (cfg : Config) (admin : String)
    (cv cs : Bool) (c : Collector) (t : String) :
    NetEvent.fetchLimits t ∉ (adminPhase env cfg admin cv cs c).2.2 := by
  unfold adminPhase
  rcases hauth : authenticate c cfg admin env with ⟨r, c1, ev⟩
  have htr := authenticate_trace c cfg admin env
  rw [hauth] at htr
  simp only at htr
  have hev : NetEvent.fetchLimits t ∉ ev := by
    rcases htr with h | h <;> simp [h]
  cases r with
  | error e => simpa using hev
  | ok u =>
    cases cv <;> cases cs <;>
      cases hv : env.getVolumesResult <;>
      cases hs : env.getSnapshotsResult <;>
      simp_all [hv, hs]

/-- The directory step emits at most a tenant-listing event. -/
theorem directoryStep_trace (c : Collector) (cfg : Config) (env : Env) :
    ∀ x ∈ (directoryStep c cfg env).2, x = NetEvent.listTenants := by
  unfold directoryStep getTenantsCall
  by_cases hemp : c.allTenants.isEmpty
  · cases hitems : getConfigItems cfg with
    | error e => simp [hemp, hitems]
    | ok items =>
      cases henv : env.getTenantsResult with
      | error e => simp [hemp, hitems, henv]
      | ok ts => simp [hemp, hitems, henv]
  · simp [hemp]

/-- The directory step only ever (re)writes the tenant directory. -/
theorem directoryStep_preserves (c : Collector) (cfg : Config) (env : Env)
    (c1 : Collector) (h : (directoryStep c cfg env).1 = .ok c1) :
    c1.allLimits = c.allLimits ∧ c1.providers = c.providers := by
  unfold directoryStep getTenantsCall at h
  by_cases hemp : c.allTenants.isEmpty
  · cases hitems : getConfigItems cfg with
    | error e => simp [hemp, hitems] at h
    | ok items =>
      cases henv : env.getTenantsResult with
      | error e => simp [hemp, hitems, henv] at h
      | ok ts =>
        simp [hemp, hitems, henv] at h
        subst h
        exact ⟨rfl, rfl⟩
  · simp [hemp] at h
    subst h
    exact ⟨rfl, rfl⟩

/-- The limits phase has the loop's trace. -/
theorem limitsPhase_trace (env : Env) (cfg : Config) (cl : Bool)
    (c : Collector) (tenants : List String) :
    (limitsPhase env cfg cl c tenants).2.2 =
      (limitsLoop env cfg cl c tenants).2.2.2 := by
  unfold limitsPhase
  rcases limitsLoop env cfg cl c tenants with ⟨r, c1, errs, ev⟩
  cases r <;> cases errs <;> simp

/-- A limits-cache entry survives a whole `CollectMetrics` call
unchanged, and the call launches no limits fetch for that tenant. -/
theorem collectMetricsAux_preserves_cached (c : Collector) (env : Env)
    (mt0 : MetricType) (mts : List MetricType) (t : String) (v : Limits)
    (h : alookup c.allLimits t = some v) :
    alookup (collectMetricsAux c env mt0 mts).2.1.allLimits t = some v ∧
    NetEvent.fetchLimits t ∉ (collectMetricsAux c env mt0 mts).2.2 := by
  cases hten : mt0.config_.tenant with
  | none =>
    simp only [collectMetricsAux, hten]
    exact ⟨h, by simp⟩
  | some admin =>
    rcases hdir : directoryStep c mt0.config_ env with ⟨dres, dev⟩
    have hdtr := directoryStep_trace c mt0.config_ env
    rw [hdir] at hdtr
    simp only at hdtr
    have hdev : NetEvent.fetchLimits t ∉ dev := by
      intro hmem
      have := hdtr _ hmem
      simp at this
    cases dres with
    | error e =>
      simp only [collectMetricsAux, hten, hdir]
      exact ⟨h, hdev⟩
    | ok c1 =>
      have hdp := directoryStep_preserves c mt0.config_ env c1 (by rw [hdir])
      have h1 : alookup c1.allLimits t = some v := by
        rw [hdp.1]
        exact h
      cases hplan : buildPlan mts with
      | error e =>
        simp only [collectMetricsAux, hten, hdir, hplan]
        exact ⟨h1, hdev⟩
      | ok plan =>
        rcases hadmin : adminPhase env mt0.config_ admin
            plan.collectVolumes plan.collectSnapshots c1 with ⟨ares, c2, aev⟩
        have hap := adminPhase_preserves env mt0.config_ admin
          plan.collectVolumes plan.collectSnapshots c1
        rw [hadmin] at hap
        simp only at hap
        have h2 : alookup c2.allLimits t = some v := by
          rw [hap.1]
          exact h1
        have hanl := adminPhase_no_limits_fetch env mt0.config_ admin
          plan.collectVolumes plan.collectSnapshots c1 t
        rw [hadmin] at hanl
        simp only at hanl
        cases ares with
        | error e =>
          simp only [collectMetricsAux, hten, hdir, hplan, hadmin]
          exact ⟨h2, by simp [hdev, hanl]⟩
        | ok maps =>
          rcases hlim : limitsPhase env mt0.config_ plan.collectLimits c2
              plan.collectTenants with ⟨lres, c3, lev⟩
          have hlc := limitsPhase_collector env mt0.config_ plan.collectLimits
            c2 plan.collectTenants
          have hlt := limitsPhase_trace env mt0.config_ plan.collectLimits
            c2 plan.collectTenants
          rw [hlim] at hlc hlt
          simp only at hlc hlt
          have hloop := limitsLoop_preserves_cached env mt0.config_
            plan.collectLimits t v plan.collectTenants c2 h2
          have h3 : alookup c3.allLimits t = some v := by
            rw [hlc]
            exact hloop.1
          have hlev : NetEvent.fetchLimits t ∉ lev := by
            rw [hlt]
            exact hloop.2
          cases lres with
          | error e =>
            simp only [collectMetricsAux, hten, hdir, hplan, hadmin, hlim]
            exact ⟨h3, by simp [hdev, hanl, hlev]⟩
          | ok u =>
            simp only [collectMetricsAux, hten, hdir, hplan, hadmin, hlim]
            exact ⟨h3, by simp [hdev, hanl, hlev]⟩

theorem collectMetrics_preserves_cached (c : Collector) (env : Env)
    (mts : List MetricType) (t : String) (v : Limits)
    (h : alookup c.allLimits t = some v) :
    alookup (collectMetrics c env mts).2.1.allLimits t = some v ∧
    NetEvent.fetchLimits t ∉ (collectMetrics c env mts).2.2 := by
  cases mts with
  | nil =>
    simp only [collectMetrics]
    exact ⟨h, by simp⟩
  | cons mt0 rest =>
    rcases haux : collectMetricsAux c env mt0 (mt0 :: rest) with ⟨r, c1, ev⟩
    have := collectMetricsAux_preserves_cached c env mt0 (mt0 :: rest) t v h
    rw [haux] at this
    simp only at this
    simp only [collectMetrics, haux]
    exact this

/-- Across arbitrarily many successive calls on the same engine
instance, a cached limits entry is never refetched and never changes. -/
theorem runCalls_preserves_cached (t : String) (v : Limits)
    (calls : List (Env × List MetricType)) :
    ∀ (c : Collector), alookup c.allLimits t = some v →
      alookup (runCalls c calls).1.allLimits t = some v ∧
      NetEvent.fetchLimits t ∉ (runCalls c calls).2 := by
  induction calls with
  | nil =>
    intro c h
    simp only [runCalls]
    exact ⟨h, by simp⟩
  | cons call rest ih =>
    intro c h
    rcases call with ⟨env, mts⟩
    rcases hcall : collectMetrics c env mts with ⟨r, c1, ev⟩
    have hone := collectMetrics_preserves_cached c env mts t v h
    rw [hcall] at hone
    simp only at hone
    rcases hrest : runCalls c1 rest with ⟨c2, ev2⟩
    have hmore := ih c1 hone.1
    rw [hrest] at hmore
    simp only at hmore
    simp only [runCalls, hcall, hrest]
    refine ⟨hmore.1, ?_⟩
    simp only [List.mem_append]
    rintro (hmem | hmem)
    · exact hone.2 hmem
    · exact hmore.2 hmem

/-! ### Claim theorems -/

/-- C9: `CollectMetrics` reads `metricTypes[0]` before any validation
with no guard, so the empty request list panics (with no state change
and no network interaction), while any non-empty request list never
panics: the call's implicit precondition is a non-empty request. -/
theorem collect_empty_request_panics (c : Collector) (env : Env) :
    collectMetrics c env [] = (.panics, c, []) ∧
    ∀ (mt0 : MetricType) (rest : List MetricType),
      (collectMetrics c env (mt0 :: rest)).1 ≠ .panics := by
  refine ⟨rfl, ?_⟩
  intro mt0 rest
  rcases haux : collectMetricsAux c env mt0 (mt0 :: rest) with ⟨r, c1, ev⟩
  simp only [collectMetrics, haux]
  cases r <;> simp [GoResult.ofExcept]

/-- C4: a first, uncached `authenticate` for a tenant performs exactly
one credential exchange and stores the session; a second call for the
same tenant returns with the cached session, the state unchanged, and
no collaborator contact, whatever configuration and oracle it runs
against. -/
theorem session_cache_idempotent (c : Collector) (cfg : Config)
    (t : String) (env : Env)
    (huncached : alookup c.providers t = none)
    (hok : (authenticate c cfg t env).1 = .ok ()) :
    (authenticate c cfg t env).2.2 = [.authExchange t] ∧
    (alookup (authenticate c cfg t env).2.1.providers t).isSome = true ∧
    ∀ (cfg2 : Config) (env2 : Env),
      authenticate (authenticate c cfg t env).2.1 cfg2 t env2 =
        (.ok (), (authenticate c cfg t env).2.1, []) := by
  have hchar : ∃ p, env.authenticateResult t = .ok p ∧
      authenticate c cfg t env =
        (.ok (), { c with providers := aset c.providers t p,
                          service := some p }, [.authExchange t]) := by
    simp only [authenticate, huncached] at hok ⊢
    cases hcfg : getConfigItems cfg with
    | error e => simp [hcfg] at hok
    | ok items =>
      simp only [hcfg] at hok ⊢
      cases har : env.authenticateResult t with
      | error e => simp [har] at hok
      | ok p =>
        simp only [har]
        exact ⟨p, rfl, rfl⟩
  obtain ⟨p, _, heq⟩ := hchar
  rw [heq]
  have hcached : alookup (aset c.providers t p) t = some p :=
    alookup_aset_self _ _ _
  refine ⟨rfl, by simp [hcached], ?_⟩
  intro cfg2 env2
  simp [authenticate, hcached]

/-- C8: a failed credential exchange propagates the authentication
error verbatim and stores nothing, so a later `authenticate` for the
same tenant (state unchanged) contacts the collaborator again. -/
theorem auth_failure_not_cached (c : Collector) (cfg : Config)
    (t : String) (env : Env) (e : CError)
    (huncached : alookup c.providers t = none)
    (hcfg : configComplete cfg = true)
    (hfail : env.authenticateResult t = .error e) :
    authenticate c cfg t env = (.error e, c, [.authExchange t]) ∧
    ∀ (env2 : Env), (authenticate c cfg t env2).2.2 = [.authExchange t] := by
  obtain ⟨items, hitems⟩ := getConfigItems_ok cfg hcfg
  constructor
  · simp [authenticate, huncached, hitems, hfail]
  · intro env2
    exact authenticate_exchanges c cfg t env2 huncached hcfg

/-- C7: a tenant present in the process-lifetime limits cache is never
fetched again, across arbitrarily many successive `CollectMetrics`
calls on the same engine instance, and its entry never changes. -/
theorem limits_cache_monotone (c : Collector) (t : String) (v : Limits)
    (h : alookup c.allLimits t = some v)
    (calls : List (Env × List MetricType)) :
    NetEvent.fetchLimits t ∉ (runCalls c calls).2 ∧
    alookup (runCalls c calls).1.allLimits t = some v := by
  have hres := runCalls_preserves_cached t v calls c h
  exact ⟨hres.2, hres.1⟩

/-! ### Concrete fixtures for witnesses and counterexamples -/

/-- A complete configuration with admin tenant "alpha". -/
def cfgW : Config :=
  { tenant := some "alpha", endpoint := some "ep", user := some "u",
    password := some "pw" }

/-- A well-behaved oracle, except that tenant "beta"'s limits fetch
fails. -/
def envW : Env :=
  { authenticateResult := fun _ => .ok 1
  , getTenantsResult := .ok [("id1", "alpha"), ("id2", "beta")]
  , getVolumesResult := .ok [("id1", { count := 7, bytes := 70 })]
  , getSnapshotsResult := .ok [("id1", { count := 3, bytes := 30 })]
  , getLimitsResult := fun t =>
      if t = "beta" then .error (.fetchFailure 7)
      else .ok { maxTotalVolumes := 50 }
  , getValueByNamespace := fun _ _ => 0
  , now := 5 }

/-- The same oracle with a failing credential exchange. -/
def envAuthFail : Env :=
  { envW with authenticateResult := fun _ => .error (.authFailure 3) }

/-- A limits request for tenant "alpha". -/
def mtW : MetricType :=
  { namespace_ :=
      ["intel", "openstack", "cinder", "alpha", "limits", "maxTotalVolumes"]
  , config_ := cfgW }

/-- A limits request for tenant "beta". -/
def mtBetaW : MetricType :=
  { namespace_ :=
      ["intel", "openstack", "cinder", "beta", "limits", "maxTotalVolumes"]
  , config_ := cfgW }

/-- A cached limits value and a collector already holding it for tenant
"alpha". -/
def limW : Limits := { maxTotalVolumes := 50 }

def cCachedW : Collector :=
  { allTenants := [("id1", "alpha"), ("id2", "beta")]
  , allLimits := [("alpha", limW)] }

/-- A collector with a populated tenant directory and empty caches. -/
def cFreshW : Collector :=
  { allTenants := [("id1", "alpha"), ("id2", "beta")] }

theorem session_cache_idempotent_witness :
    alookup ({} : Collector).providers "alpha" = none ∧
    (authenticate {} cfgW "alpha" envW).1 = .ok () ∧
    (authenticate {} cfgW "alpha" envW).2.2 = [.authExchange "alpha"] :=
  ⟨rfl, rfl, (session_cache_idempotent {} cfgW "alpha" envW rfl rfl).1⟩

theorem auth_failure_not_cached_witness :
    alookup ({} : Collector).providers "beta" = none ∧
    configComplete cfgW = true ∧
    envAuthFail.authenticateResult "beta" = .error (.authFailure 3) ∧
    authenticate {} cfgW "beta" envAuthFail =
      (.error (.authFailure 3), {}, [.authExchange "beta"]) :=
  ⟨rfl, rfl, rfl,
    (auth_failure_not_cached {} cfgW "beta" envAuthFail (.authFailure 3)
      rfl rfl rfl).1⟩

theorem limits_cache_monotone_witness :
    alookup cCachedW.allLimits "alpha" = some limW ∧
    (NetEvent.fetchLimits "alpha" ∉ (runCalls cCachedW [(envW, [mtW])]).2 ∧
     alookup (runCalls cCachedW [(envW, [mtW])]).1.allLimits "alpha" =
       some limW) :=
  ⟨rfl, limits_cache_monotone cCachedW "alpha" limW rfl [(envW, [mtW])]⟩

/-! ### C3: category flags -/

/-- The flag computation exactly as claim C3 states it: only segment 4
(the category segment) of each requested namespace decides the flags. -/
def specNeedLimits (mts : List MetricType) : Bool :=
  mts.any (fun mt => mt.namespace_.getD 4 "" == "limits")

def specNeedVolumes (mts : List MetricType) : Bool :=
  mts.any (fun mt => mt.namespace_.getD 4 "" == "volumes")

def specNeedSnapshots (mts : List MetricType) : Bool :=
  mts.any (fun mt => mt.namespace_.getD 4 "" == "snapshots")

/-- A request whose tenant display name (segment 3) is the word
"limits" while its category segment (segment 4) is "volumes". -/
def mtTenantNamedLimits : MetricType :=
  { namespace_ := ["intel", "openstack", "cinder", "limits", "volumes", "count"]
  , config_ := cfgW }

/-- C3 counterexample: on a request whose tenant display name is
"limits" and whose category segment is "volumes", the code sets
`collectLimits` and leaves `collectVolumes` unset, while the claim
(segment 4 alone decides) demands the opposite — so segment 3 does
influence the flags. -/
theorem plan_flags_counterexample :
    buildPlan [mtTenantNamedLimits] =
      .ok { collectTenants := ["limits"], collectLimits := true,
            collectVolumes := false, collectSnapshots := false } ∧
    specNeedVolumes [mtTenantNamedLimits] = true ∧
    specNeedLimits [mtTenantNamedLimits] = false := by
  refine ⟨?_, ?_, ?_⟩ <;> rfl

/-- C3 amended: the category flags are computed by `str.Contains`
membership over ALL namespace segments, with priority limits over
volumes over snapshots — so any segment (including the tenant display
name) can set a flag: `collectLimits` is set iff some requested
namespace contains a "limits" segment anywhere; `collectVolumes` iff
some namespace contains "volumes" but no "limits" segment;
`collectSnapshots` iff some namespace contains neither. -/
theorem plan_flags_amended (mts : List MetricType) (plan : CollectionPlan)
    (h : buildPlan mts = .ok plan) :
    (plan.collectLimits = true ↔ ∃ mt ∈ mts, "limits" ∈ mt.namespace_) ∧
    (plan.collectVolumes = true ↔
      ∃ mt ∈ mts, "limits" ∉ mt.namespace_ ∧ "volumes" ∈ mt.namespace_) ∧
    (plan.collectSnapshots = true ↔
      ∃ mt ∈ mts, "limits" ∉ mt.namespace_ ∧ "volumes" ∉ mt.namespace_) := by
  have hres := buildPlanAux_flags mts {} plan h
  simpa using hres

/-- The plan the code derives from the single request `mtW`. -/
def planW : CollectionPlan :=
  { collectTenants := ["alpha"], collectLimits := true,
    collectVolumes := false, collectSnapshots := false }

theorem plan_flags_amended_witness :
    buildPlan [mtW] = .ok planW ∧
    (planW.collectLimits = true ↔ ∃ mt ∈ [mtW], "limits" ∈ mt.namespace_) :=
  ⟨rfl, (plan_flags_amended [mtW] planW rfl).1⟩

/-! ### C1: all-or-nothing limits join -/

/-- C1 counterexample: with two uncached tenants "alpha" and "beta"
requested for limits and exactly one fetch ("beta"'s) failing, the call
does return an error, but the process-lifetime cache afterwards
contains "alpha"'s successfully fetched limits and a zero-valued entry
for "beta" — not "none of the N results" as claimed. -/
theorem limits_all_or_nothing_counterexample :
    (collectMetrics cFreshW envW [mtW, mtBetaW]).1 = .err (.fetchFailure 7) ∧
    alookup (collectMetrics cFreshW envW [mtW, mtBetaW]).2.1.allLimits "alpha"
      = some limW ∧
    alookup (collectMetrics cFreshW envW [mtW, mtBetaW]).2.1.allLimits "beta"
      = some {} := by
  refine ⟨?_, ?_, ?_⟩ <;> rfl

/-- C1 amended: during the per-tenant limits phase, if N concurrent
limits fetches are launched (all listed tenants uncached, limits
requested, every per-tenant authentication succeeding) and at least one
of them fails, the call returns an error but the process-lifetime cache
afterwards contains ALL N results: each tenant whose fetch succeeded is
committed with its fetched limits, and each tenant whose fetch failed
is committed with the zero-valued limits, because the fetch task's
store into the cache is not skipped on error. -/
theorem limits_phase_commits_all_amended (env : Env) (cfg : Config)
    (c : Collector) (tenants : List String)
    (hcfg : configComplete cfg = true)
    (hauth : ∀ t ∈ tenants, ∃ p, env.authenticateResult t = .ok p)
    (hpre : ∀ t ∈ tenants, alookup c.allLimits t = none)
    (hfail : ∃ t ∈ tenants, ∃ e, env.getLimitsResult t = .error e) :
    (∃ e, (limitsPhase env cfg true c tenants).1 = .error e) ∧
    ∀ t ∈ tenants,
      alookup (limitsPhase env cfg true c tenants).2.1.allLimits t =
        some (goGetLimits env t).1 := by
  have hcommit := limitsLoop_commits env cfg hcfg tenants c hauth
    (fun t ht => Or.inl (hpre t ht))
  obtain ⟨tw, htw, e, he⟩ := hfail
  have herr := limitsLoop_error_nonempty env cfg hcfg tenants c hauth
    ⟨tw, htw, hpre tw htw, e, he⟩
  refine ⟨limitsPhase_err env cfg true c tenants herr, ?_⟩
  intro t ht
  rw [limitsPhase_collector]
  exact hcommit.2 t ht

theorem limits_phase_commits_all_amended_witness :
    configComplete cfgW = true ∧
    (∃ e, (limitsPhase envW cfgW true cFreshW ["alpha", "beta"]).1 =
      .error e) ∧
    alookup (limitsPhase envW cfgW true cFreshW
        ["alpha", "beta"]).2.1.allLimits "alpha" =
      some (goGetLimits envW "alpha").1 :=
  ⟨rfl,
   (limits_phase_commits_all_amended envW cfgW cFreshW ["alpha", "beta"] rfl
      (fun t _ => ⟨1, rfl⟩) (fun t _ => rfl)
      ⟨"beta", by simp, .fetchFailure 7, rfl⟩).1,
   (limits_phase_commits_all_amended envW cfgW cFreshW ["alpha", "beta"] rfl
      (fun t _ => ⟨1, rfl⟩) (fun t _ => rfl)
      ⟨"beta", by simp, .fetchFailure 7, rfl⟩).2 "alpha" (by simp)⟩

/-- C10: when the limits fetch for an uncached tenant fails, the fetch
task still stores an entry for that tenant — the zero-valued limits
structure — in the process-lifetime cache, so every subsequent
`CollectMetrics` call (arbitrarily many) finds the tenant present and
never retries its limits fetch. -/
theorem failed_limits_fetch_poisons_cache (env : Env) (cfg : Config)
    (c : Collector) (tenants : List String) (t : String) (e : CError)
    (hcfg : configComplete cfg = true)
    (hauth : ∀ t2 ∈ tenants, ∃ p, env.authenticateResult t2 = .ok p)
    (hpre : ∀ t2 ∈ tenants, alookup c.allLimits t2 = none)
    (hmem : t ∈ tenants)
    (hfail : env.getLimitsResult t = .error e) :
    alookup (limitsPhase env cfg true c tenants).2.1.allLimits t =
      some default ∧
    ∀ (calls : List (Env × List MetricType)),
      NetEvent.fetchLimits t ∉
        (runCalls (limitsPhase env cfg true c tenants).2.1 calls).2 := by
  have hcommit := limitsLoop_commits env cfg hcfg tenants c hauth
    (fun t2 ht2 => Or.inl (hpre t2 ht2))
  have hval : (goGetLimits env t).1 = default := by
    simp [goGetLimits, hfail]
  have hstored : alookup (limitsPhase env cfg true c tenants).2.1.allLimits t
      = some default := by
    rw [limitsPhase_collector, hcommit.2 t hmem, hval]
  refine ⟨hstored, ?_⟩
  intro calls
  exact (runCalls_preserves_cached t default calls _ hstored).2

theorem failed_limits_fetch_poisons_cache_witness :
    configComplete cfgW = true ∧
    envW.getLimitsResult "beta" = .error (.fetchFailure 7) ∧
    alookup (limitsPhase envW cfgW true cFreshW
        ["alpha", "beta"]).2.1.allLimits "beta" = some default :=
  ⟨rfl, rfl,
   (failed_limits_fetch_poisons_cache envW cfgW cFreshW ["alpha", "beta"]
      "beta" (.fetchFailure 7) rfl (fun t _ => ⟨1, rfl⟩) (fun t _ => rfl)
      (by simp) rfl).1⟩

/-! ### C2: malformed-namespace validation -/

/-- A request with only 4 namespace segments. -/
def mtShortW : MetricType :=
  { namespace_ := ["intel", "openstack", "cinder", "alpha"], config_ := cfgW }

/-- C2 counterexample: on a fresh engine instance (empty tenant
directory), a request containing a 4-segment namespace does fail with
the malformed-namespace error, but a tenant-directory listing — network
interaction the claim rules out — has been performed before the
validation. -/
theorem malformed_namespace_counterexample :
    (collectMetrics {} envW [mtShortW]).1 = .err (.malformedNamespace 4) ∧
    NetEvent.listTenants ∈ (collectMetrics {} envW [mtShortW]).2.2 := by
  refine ⟨rfl, ?_⟩
  have h : (collectMetrics {} envW [mtShortW]).2.2 = [NetEvent.listTenants] :=
    rfl
  rw [h]
  simp

/-- C2 amended: a request batch containing a namespace with fewer than
6 segments makes `CollectMetrics` fail with a malformed-namespace
error, performing no authentication and no volumes/snapshots/limits
fetch — but when the engine's tenant directory is empty, a
tenant-directory listing is performed before the validation (the
statement assumes the listing succeeds; a failing listing would be
surfaced instead). -/
theorem malformed_namespace_amended (c : Collector) (env : Env)
    (mt0 : MetricType) (rest : List MetricType) (admin : String)
    (hten : mt0.config_.tenant = some admin)
    (hcfg : configComplete mt0.config_ = true)
    (hdir : c.allTenants = [] → ∃ ts, env.getTenantsResult = .ok ts)
    (hshort : ∃ mt ∈ mt0 :: rest, mt.namespace_.length < 6) :
    (∃ n, n < 6 ∧
      (collectMetrics c env (mt0 :: rest)).1 =
        .err (.malformedNamespace n)) ∧
    ∀ x ∈ (collectMetrics c env (mt0 :: rest)).2.2,
      x = NetEvent.listTenants := by
  obtain ⟨n, hn, hplanerr⟩ := buildPlanAux_short (mt0 :: rest) {} hshort
  have hplan2 : buildPlan (mt0 :: rest) = .error (.malformedNamespace n) :=
    hplanerr
  obtain ⟨items, hitems⟩ := getConfigItems_ok mt0.config_ hcfg
  by_cases hemp : c.allTenants.isEmpty
  · obtain ⟨ts, hts⟩ := hdir (List.isEmpty_iff.mp hemp)
    have hstep : directoryStep c mt0.config_ env =
        (.ok { c with allTenants := ts }, [.listTenants]) := by
      simp [directoryStep, hemp, getTenantsCall, hitems, hts]
    simp only [collectMetrics, collectMetricsAux, hten, hstep, hplan2,
      GoResult.ofExcept]
    refine ⟨⟨n, hn, rfl⟩, ?_⟩
    intro x hx
    simpa using hx
  · have hstep : directoryStep c mt0.config_ env = (.ok c, []) := by
      simp [directoryStep, hemp]
    simp only [collectMetrics, collectMetricsAux, hten, hstep, hplan2,
      GoResult.ofExcept]
    refine ⟨⟨n, hn, rfl⟩, ?_⟩
    intro x hx
    simp at hx

theorem malformed_namespace_amended_witness :
    configComplete cfgW = true ∧
    mtShortW.namespace_.length < 6 ∧
    (∃ n, n < 6 ∧
      (collectMetrics cFreshW envW [mtShortW]).1 =
        .err (.malformedNamespace n)) :=
  ⟨rfl, by decide,
   (malformed_namespace_amended cFreshW envW mtShortW [] "alpha" rfl rfl
      (fun h => absurd h (by decide))
      ⟨mtShortW, by simp, by decide⟩).1⟩

/-! ### C5: admin-scoped phase join -/

/-- If the admin authentication succeeds and one of the launched bulk
fetches fails, the admin phase fails, yet every launched fetch ran to
completion (its event is in the trace) and its result maps are
discarded. -/
theorem adminPhase_err (env : Env) (cfg : Config) (admin : String)
    (cv cs : Bool) (c : Collector)
    (hcfg : configComplete cfg = true)
    (hauth : ∃ p, env.authenticateResult admin = .ok p)
    (hfail : (cv = true ∧ ∃ e, env.getVolumesResult = .error e) ∨
             (cs = true ∧ ∃ e, env.getSnapshotsResult = .error e)) :
    (∃ e, (adminPhase env cfg admin cv cs c).1 = .error e) ∧
    (cv = true →
      NetEvent.fetchVolumes ∈ (adminPhase env cfg admin cv cs c).2.2) ∧
    (cs = true →
      NetEvent.fetchSnapshots ∈ (adminPhase env cfg admin cv cs c).2.2) := by
  obtain ⟨c1, ev, hauth1, _, _⟩ := authenticate_ok c cfg admin env hcfg hauth
  unfold adminPhase
  rw [hauth1]
  rcases hfail with ⟨hcv, e, hv⟩ | ⟨hcs, e, hs⟩
  · subst hcv
    cases cs with
    | false => simp [hv]
    | true =>
      cases hs2 : env.getSnapshotsResult with
      | error e2 => simp [hv, hs2]
      | ok m => simp [hv, hs2]
  · subst hcs
    cases cv with
    | false => simp [hs]
    | true =>
      cases hv2 : env.getVolumesResult with
      | error e2 => simp [hs, hv2]
      | ok m => simp [hs, hv2]

/-- C5: in the admin-scoped phase, the orchestrator waits for all
launched volumes/snapshots fetches (each launched fetch's completion
event is in the trace even when a sibling failed); if any of them
failed, the whole `CollectMetrics` call returns an error, so no metric
values are produced and the successful fetch's call-local results are
discarded. -/
theorem admin_phase_all_or_nothing (c : Collector) (env : Env)
    (mt0 : MetricType) (rest : List MetricType) (admin : String)
    (plan : CollectionPlan)
    (hten : mt0.config_.tenant = some admin)
    (hnonempty : ¬ c.allTenants.isEmpty = true)
    (hcfg : configComplete mt0.config_ = true)
    (hauth : ∃ p, env.authenticateResult admin = .ok p)
    (hplan : buildPlan (mt0 :: rest) = .ok plan)
    (hfail :
      (plan.collectVolumes = true ∧ ∃ e, env.getVolumesResult = .error e) ∨
      (plan.collectSnapshots = true ∧
        ∃ e, env.getSnapshotsResult = .error e)) :
    (∃ e, (collectMetrics c env (mt0 :: rest)).1 = .err e) ∧
    (plan.collectVolumes = true →
      NetEvent.fetchVolumes ∈ (collectMetrics c env (mt0 :: rest)).2.2) ∧
    (plan.collectSnapshots = true →
      NetEvent.fetchSnapshots ∈ (collectMetrics c env (mt0 :: rest)).2.2) := by
  have hstep : directoryStep c mt0.config_ env = (.ok c, []) := by
    simp [directoryStep, hnonempty]
  have hadmin := adminPhase_err env mt0.config_ admin plan.collectVolumes
    plan.collectSnapshots c hcfg hauth hfail
  rcases ha : adminPhase env mt0.config_ admin plan.collectVolumes
      plan.collectSnapshots c with ⟨ares, c2, aev⟩
  rw [ha] at hadmin
  simp only at hadmin
  obtain ⟨⟨e, he⟩, hv, hs⟩ := hadmin
  subst he
  simp only [collectMetrics, collectMetricsAux, hten, hstep, hplan, ha,
    GoResult.ofExcept]
  refine ⟨⟨e, rfl⟩, fun hcv => ?_, fun hcs => ?_⟩
  · simpa using hv hcv
  · simpa using hs hcs

/-- A volumes request for tenant "alpha". -/
def mtVolW : MetricType :=
  { namespace_ := ["intel", "openstack", "cinder", "alpha", "volumes", "count"]
  , config_ := cfgW }

/-- The oracle with a failing volumes bulk fetch. -/
def envVolFail : Env :=
  { envW with getVolumesResult := .error (.fetchFailure 9) }

/-- The plan the code derives from the single request `mtVolW`. -/
def planVolW : CollectionPlan :=
  { collectTenants := ["alpha"], collectLimits := false,
    collectVolumes := true, collectSnapshots := false }

theorem admin_phase_all_or_nothing_witness :
    buildPlan [mtVolW] = .ok planVolW ∧
    (∃ e, (collectMetrics cFreshW envVolFail [mtVolW]).1 = .err e) :=
  ⟨rfl,
   (admin_phase_all_or_nothing cFreshW envVolFail mtVolW [] "alpha" planVolW
      rfl (by decide) rfl ⟨1, rfl⟩ rfl
      (Or.inl ⟨rfl, .fetchFailure 9, rfl⟩)).1⟩

/-! ### C6: projection of successful results -/

theorem getD_map_of_lt {α β : Type} [Inhabited α] [Inhabited β]
    (f : α → β) (l : List α) (i : Nat) (h : i < l.length) :
    (l.map f).getD i default = f (l.getD i default) := by
  induction l generalizing i with
  | nil => simp at h
  | cons a l ih =>
    cases i with
    | zero => simp
    | succ n => simpa using ih n (by simpa using h)

/-- A successful `collectMetricsAux` run returns exactly the projection
of the request list over the fetched category maps. -/
theorem collectMetricsAux_ok (c : Collector) (env : Env) (mt0 : MetricType)
    (mts : List MetricType) (out : List MetricType) (c2 : Collector)
    (ev : List NetEvent)
    (h : collectMetricsAux c env mt0 mts = (.ok out, c2, ev)) :
    ∃ aV aS, out = mts.map (projectMetric env aS aV c2.allLimits) := by
  cases hten : mt0.config_.tenant with
  | none =>
    simp only [collectMetricsAux, hten] at h
    simp at h
  | some admin =>
    rcases hdir : directoryStep c mt0.config_ env with ⟨dres, dev⟩
    cases dres with
    | error e =>
      simp only [collectMetricsAux, hten, hdir] at h
      simp at h
    | ok c1 =>
      cases hplan : buildPlan mts with
      | error e =>
        simp only [collectMetricsAux, hten, hdir, hplan] at h
        simp at h
      | ok plan =>
        rcases hadmin : adminPhase env mt0.config_ admin plan.collectVolumes
            plan.collectSnapshots c1 with ⟨ares, cA, aev⟩
        cases ares with
        | error e =>
          simp only [collectMetricsAux, hten, hdir, hplan, hadmin] at h
          simp at h
        | ok maps =>
          rcases hlim : limitsPhase env mt0.config_ plan.collectLimits cA
              plan.collectTenants with ⟨lres, cL, lev⟩
          cases lres with
          | error e =>
            simp only [collectMetricsAux, hten, hdir, hplan, hadmin,
              hlim] at h
            simp at h
          | ok u =>
            simp only [collectMetricsAux, hten, hdir, hplan, hadmin,
              hlim] at h
            injection h with h1 h23
            injection h23 with h2 h3
            injection h1 with h1
            subst h2
            exact ⟨maps.1, maps.2, h1.symm⟩

/-- C6: a successful `CollectMetrics` call returns exactly one metric
value per requested namespace, in request order, each carrying that
request's namespace, the call's timestamp, and the scalar extracted
from the per-tenant container assembled from the category result maps
and the limits cache. -/
theorem collect_success_projection (c : Collector) (env : Env)
    (mts out : List MetricType) (c2 : Collector) (tr : List NetEvent)
    (h : collectMetrics c env mts = (.ok out, c2, tr)) :
    ∃ aV aS, out = mts.map (projectMetric env aS aV c2.allLimits) ∧
      out.length = mts.length ∧
      ∀ i, i < mts.length →
        (out.getD i default).namespace_ = (mts.getD i default).namespace_ ∧
        (out.getD i default).timestamp_ = env.now ∧
        (out.getD i default).data_ =
          env.getValueByNamespace
            (mkContainer aS aV c2.allLimits
              ((mts.getD i default).namespace_.getD 3 ""))
            ((mts.getD i default).namespace_.drop 4) := by
  cases mts with
  | nil => simp [collectMetrics] at h
  | cons mt0 rest =>
    rcases haux : collectMetricsAux c env mt0 (mt0 :: rest) with ⟨r, c1, ev⟩
    simp only [collectMetrics, haux] at h
    cases r with
    | error e => simp [GoResult.ofExcept] at h
    | ok val =>
      simp only [GoResult.ofExcept] at h
      injection h with h1 h23
      injection h23 with h2 h3
      injection h1 with h1
      subst h1
      subst h2
      obtain ⟨aV, aS, hmap⟩ :=
        collectMetricsAux_ok c env mt0 (mt0 :: rest) _ c1 ev haux
      refine ⟨aV, aS, hmap, ?_, ?_⟩
      · rw [hmap]
        exact List.length_map _ _
      · intro i hi
        have hD := getD_map_of_lt (projectMetric env aS aV c1.allLimits)
          (mt0 :: rest) i hi
        rw [hmap, hD]
        exact ⟨rfl, rfl, rfl⟩

/-- The fixture oracle with every fetch succeeding. -/
def envOkW : Env := { envW with getLimitsResult := fun _ => .ok limW }

/-- The output of the successful fixture run. -/
def outW : List MetricType :=
  [{ namespace_ :=
       ["intel", "openstack", "cinder", "alpha", "limits", "maxTotalVolumes"]
   , config_ := {}
   , timestamp_ := 5
   , data_ := 0 }]

/-- The collector state after the successful fixture run. -/
def cAfterW : Collector :=
  { allTenants := [("id1", "alpha"), ("id2", "beta")]
  , service := some 1
  , allLimits := [("alpha", limW)]
  , providers := [("alpha", 1)] }

theorem collect_success_projection_witness :
    collectMetrics cFreshW envOkW [mtW] =
      (.ok outW, cAfterW, [.authExchange "alpha", .fetchLimits "alpha"]) ∧
    ∃ aV aS, outW = [mtW].map (projectMetric envOkW aS aV cAfterW.allLimits) ∧
      outW.length = [mtW].length ∧
      ∀ i, i < [mtW].length →
        (outW.getD i default).namespace_ =
          ([mtW].getD i default).namespace_ ∧
        (outW.getD i default).timestamp_ = envOkW.now ∧
        (outW.getD i default).data_ =
          envOkW.getValueByNamespace
            (mkContainer aS aV cAfterW.allLimits
              (([mtW].getD i default).namespace_.getD 3 ""))
            (([mtW].getD i default).namespace_.drop 4) :=
  ⟨rfl,
   collect_success_projection cFreshW envOkW [mtW] outW cAfterW
     [.authExchange "alpha", .fetchLimits "alpha"] rfl⟩
